import Mathlib

/-!
Shallow embedding of the solquad token program
(src/programs/solquad/src/testing.rs): the Token ledger state with its
four operations, the instruction decoder, and the entrypoint
process_instruction.  Machine integers (u64) are modelled as Nat; the
wrapping of the single unchecked u64 addition is made explicit with
% 2 ^ 64.  Fallible Rust paths return Except / RunResult; a Rust panic
(for example split_at out of bounds, or slice indexing out of bounds) is
the explicit RunResult.panic outcome.
-/

namespace Solquad

/-- A Solana Pubkey: opaque 32-byte identifier, modelled as the list of
its byte values; equality-comparable. -/
abbrev Pubkey := List Nat

/-- Error variants this program can produce.  invalidInstruction is the
malformed-instruction error, invalidArgument the unknown-account error
of transfer, notEnoughAccountKeys the error next_account_info returns on
an exhausted account list. -/
inductive ProgramError where
  | invalidInstruction
  | invalidArgument
  | insufficientFunds
  | notEnoughAccountKeys
deriving DecidableEq

/-- Rust ProgramResult = Result of Unit and ProgramError. -/
abbrev ProgramResult := Except ProgramError Unit

/-- Outcome of running a code fragment that may return a value, return a
ProgramError, or abort the process (Rust panic). -/
inductive RunResult (α : Type) where
  | ok (value : α)
  | err (e : ProgramError)
  | panic
deriving DecidableEq

/-- The token state, field for field as in the source. -/
structure Token where
  total_supply : Nat
  owner : Pubkey
  balances : List (Pubkey × Nat)
  allowances : List (Pubkey × Pubkey × Nat)
deriving DecidableEq

/-- Rust Token::initialize: sets total_supply and owner and pushes
(owner, total_supply) onto the balances vector. -/
def Token.initializeToken (t : Token) (total_supply : Nat) (owner : Pubkey) : Token :=
  { t with
    total_supply := total_supply
    owner := owner
    balances := t.balances ++ [(owner, total_supply)] }

/-- The index-search loop at the start of Token::transfer: walks the
balances vector, records (overwriting) the index of any entry matching
sender and of any entry matching recipient, and breaks as soon as both
have been seen. -/
def scanIndices (sender recipient : Pubkey) :
    List (Pubkey × Nat) → Nat → Option Nat → Option Nat → Option Nat × Option Nat
  | [], _, sIdx, rIdx => (sIdx, rIdx)
  | (account, _) :: rest, i, sIdx, rIdx =>
    let sIdx' := if account == sender then some i else sIdx
    let rIdx' := if account == recipient then some i else rIdx
    if sIdx'.isSome && rIdx'.isSome then (sIdx', rIdx')
    else scanIndices sender recipient rest (i + 1) sIdx' rIdx'

/-- Rust Token::transfer.  Errors with InvalidArgument when the index
search found no entry for sender or none for recipient, with
InsufficientFunds when the sender balance is below amount; otherwise
decrements the sender entry and then increments the recipient entry (a
u64 += that wraps, hence the % 2 ^ 64).  The returned Token is the state
after the call: unchanged on every error path. -/
def Token.transfer (t : Token) (sender recipient : Pubkey) (amount : Nat) :
    ProgramResult × Token :=
  match scanIndices sender recipient t.balances 0 none none with
  | (some senderIndex, some recipientIndex) =>
    if (t.balances.getD senderIndex ([], 0)).2 < amount then
      (Except.error ProgramError.insufficientFunds, t)
    else
      let sEntry := t.balances.getD senderIndex ([], 0)
      let bs1 := t.balances.set senderIndex (sEntry.1, sEntry.2 - amount)
      let rEntry := bs1.getD recipientIndex ([], 0)
      let bs2 := bs1.set recipientIndex (rEntry.1, (rEntry.2 + amount) % 2 ^ 64)
      (Except.ok (), { t with balances := bs2 })
  | _ => (Except.error ProgramError.invalidArgument, t)

/-- Rust Token::get_balance: first balances entry whose account matches,
as an Option on its amount. -/
def Token.get_balance (t : Token) (account : Pubkey) : Option Nat :=
  (t.balances.find? (fun e => e.1 == account)).map (fun e => e.2)

/-- Rust Token::approve: position of the first allowances entry for the
(sender, spender) pair; overwrites its amount when present, pushes a new
entry otherwise.  Always returns Ok. -/
def Token.approve (t : Token) (sender spender : Pubkey) (amount : Nat) :
    ProgramResult × Token :=
  match t.allowances.findIdx? (fun e => e.1 == sender && e.2.1 == spender) with
  | some index =>
    let e := t.allowances.getD index ([], [], 0)
    (Except.ok (),
      { t with allowances := t.allowances.set index (e.1, e.2.1, amount) })
  | none =>
    (Except.ok (), { t with allowances := t.allowances ++ [(sender, spender, amount)] })

/-- Allowance-table update performed by Token.approve, written as direct
recursion: the first entry for the (sender, spender) pair has its amount
overwritten, and a new entry is appended when none matches.  Proved
equal to the findIdx?-and-set formulation of the source below. -/
def setAllowance (sender spender : Pubkey) (amount : Nat) :
    List (Pubkey × Pubkey × Nat) → List (Pubkey × Pubkey × Nat)
  | [] => [(sender, spender, amount)]
  | e :: rest =>
    if e.1 == sender && e.2.1 == spender then (e.1, e.2.1, amount) :: rest
    else e :: setAllowance sender spender amount rest

/-- The four decoded instructions. -/
inductive TokenInstruction where
  | Initialize (total_supply : Nat)
  | Transfer (amount : Nat)
  | GetBalance
  | Approve (spender : Pubkey) (amount : Nat)
deriving DecidableEq

/-- Value of u64::from_le_bytes on a list of bytes (byte 0 least
significant). -/
def fromLeBytes : List Nat → Nat
  | [] => 0
  | b :: rest => b + 256 * fromLeBytes rest

/-- Rust TokenInstruction::unpack_u64: errors with InvalidInstruction
when fewer than 8 bytes remain, otherwise reads the first 8 bytes as a
little-endian u64 and ignores the rest. -/
def TokenInstruction.unpack_u64 (input : List Nat) : RunResult Nat :=
  if input.length < 8 then RunResult.err ProgramError.invalidInstruction
  else RunResult.ok (fromLeBytes (input.take 8))

/-- Rust TokenInstruction::unpack_pubkey: input.split_at(32) with no
length check, so a buffer of fewer than 32 bytes makes split_at panic. -/
def TokenInstruction.unpack_pubkey (input : List Nat) : RunResult (Pubkey × List Nat) :=
  if input.length < 32 then RunResult.panic
  else RunResult.ok (input.take 32, input.drop 32)

/-- Rust TokenInstruction::unpack_approve: a pubkey then a u64. -/
def TokenInstruction.unpack_approve (input : List Nat) : RunResult (Pubkey × Nat) :=
  match TokenInstruction.unpack_pubkey input with
  | RunResult.panic => RunResult.panic
  | RunResult.err e => RunResult.err e
  | RunResult.ok (spender, rest) =>
    match TokenInstruction.unpack_u64 rest with
    | RunResult.panic => RunResult.panic
    | RunResult.err e => RunResult.err e
    | RunResult.ok amount => RunResult.ok (spender, amount)

/-- Rust TokenInstruction::unpack: first byte is the tag
(InvalidInstruction on an empty buffer and on an unrecognized tag), then
the payload of the selected variant. -/
def TokenInstruction.unpack (data : List Nat) : RunResult TokenInstruction :=
  match data with
  | [] => RunResult.err ProgramError.invalidInstruction
  | tag :: rest =>
    match tag with
    | 0 =>
      match TokenInstruction.unpack_u64 rest with
      | RunResult.ok n => RunResult.ok (TokenInstruction.Initialize n)
      | RunResult.err e => RunResult.err e
      | RunResult.panic => RunResult.panic
    | 1 =>
      match TokenInstruction.unpack_u64 rest with
      | RunResult.ok n => RunResult.ok (TokenInstruction.Transfer n)
      | RunResult.err e => RunResult.err e
      | RunResult.panic => RunResult.panic
    | 2 => RunResult.ok TokenInstruction.GetBalance
    | 3 =>
      match TokenInstruction.unpack_approve rest with
      | RunResult.ok (spender, amount) => RunResult.ok (TokenInstruction.Approve spender amount)
      | RunResult.err e => RunResult.err e
      | RunResult.panic => RunResult.panic
    | _ => RunResult.err ProgramError.invalidInstruction

/-- Rust process_instruction.  Each arm rebuilds an empty Token (the
balances and allowances vectors start empty and total_supply starts 0)
instead of loading persisted state.  The Initialize arm indexes
accounts[0] directly, which panics on an empty account list; the other
arms first obtain accounts through next_account_info, which returns
NotEnoughAccountKeys when the list is exhausted. -/
def process_instruction (_program_id : Pubkey) (accounts : List Pubkey)
    (instruction_data : List Nat) : RunResult Unit :=
  match TokenInstruction.unpack instruction_data with
  | RunResult.err e => RunResult.err e
  | RunResult.panic => RunResult.panic
  | RunResult.ok instruction =>
    match instruction with
    | TokenInstruction.Initialize total_supply =>
      match accounts[0]? with
      | none => RunResult.panic
      | some key0 =>
        let token : Token := ⟨0, key0, [], []⟩
        let _token := token.initializeToken total_supply key0
        RunResult.ok ()
    | TokenInstruction.Transfer amount =>
      match accounts[0]? with
      | none => RunResult.err ProgramError.notEnoughAccountKeys
      | some sender =>
        match accounts[1]? with
        | none => RunResult.err ProgramError.notEnoughAccountKeys
        | some recipient =>
          let token : Token := ⟨0, sender, [], []⟩
          match (token.transfer sender recipient amount).1 with
          | Except.error e => RunResult.err e
          | Except.ok () => RunResult.ok ()
    | TokenInstruction.GetBalance =>
      match accounts[0]? with
      | none => RunResult.err ProgramError.notEnoughAccountKeys
      | some account =>
        let token : Token := ⟨0, account, [], []⟩
        let _balance := (token.get_balance account).getD 0
        RunResult.ok ()
    | TokenInstruction.Approve spender amount =>
      match accounts[0]? with
      | none => RunResult.err ProgramError.notEnoughAccountKeys
      | some ownerAccount =>
        let token : Token := ⟨0, ownerAccount, [], []⟩
        match (token.approve ownerAccount spender amount).1 with
        | Except.error e => RunResult.err e
        | Except.ok () => RunResult.ok ()

/-- Sum of the amounts of all balance entries. -/
def sumBalances (l : List (Pubkey × Nat)) : Nat :=
  (l.map (fun e => e.2)).sum

/-- An empty LedgerState: total_supply 0, empty tables. -/
def emptyLedger : Token := ⟨0, List.replicate 32 0, [], []⟩

/-- Applies a sequence of transfer requests (sender, recipient, amount),
each starting from the state the previous call returned (the state is
unchanged when a call errors). -/
def runTransfers (t : Token) : List (Pubkey × Pubkey × Nat) → Token
  | [] => t
  | (s, r, a) :: rest => runTransfers (t.transfer s r a).2 rest

/-- Encoding of an instruction per the documented wire layout: tag byte,
then little-endian u64 fields, a 32-byte identifier before the amount
for Approve.  Written from the spec wire table, to be compared with the
decoder. -/
def toLeBytesAux : Nat → Nat → List Nat
  | 0, _ => []
  | k + 1, n => n % 256 :: toLeBytesAux k (n / 256)

/-- Little-endian 8-byte encoding of a u64 value. -/
def toLeBytes (n : Nat) : List Nat := toLeBytesAux 8 n

/-- Spec §6 encoder for the four instruction variants. -/
def pack : TokenInstruction → List Nat
  | TokenInstruction.Initialize ts => 0 :: toLeBytes ts
  | TokenInstruction.Transfer a => 1 :: toLeBytes a
  | TokenInstruction.GetBalance => [2]
  | TokenInstruction.Approve sp a => 3 :: (sp ++ toLeBytes a)

/-- Concrete pubkeys for witnesses. -/
def pA : Pubkey := List.replicate 32 1

/-- Second concrete pubkey. -/
def pB : Pubkey := List.replicate 32 2

/-- Well-formed field values for an instruction: u64 fields below 2 ^ 64
and a 32-byte spender identifier. -/
def wfInstruction : TokenInstruction → Prop
  | TokenInstruction.Initialize ts => ts < 2 ^ 64
  | TokenInstruction.Transfer a => a < 2 ^ 64
  | TokenInstruction.GetBalance => True
  | TokenInstruction.Approve sp a => sp.length = 32 ∧ a < 2 ^ 64

theorem toLeBytesAux_length (k n : Nat) : (toLeBytesAux k n).length = k := by
  induction k generalizing n with
  | zero => rfl
  | succ k ih => simp [toLeBytesAux, ih]

theorem toLeBytes_length (n : Nat) : (toLeBytes n).length = 8 :=
  toLeBytesAux_length 8 n

theorem fromLeBytes_toLeBytesAux (k n : Nat) :
    fromLeBytes (toLeBytesAux k n) = n % 256 ^ k := by
  induction k generalizing n with
  | zero => simp [toLeBytesAux, fromLeBytes, Nat.mod_one]
  | succ k ih =>
    rw [toLeBytesAux, fromLeBytes, ih, pow_succ', Nat.mod_mul]

theorem fromLeBytes_toLeBytes (n : Nat) (h : n < 2 ^ 64) :
    fromLeBytes (toLeBytes n) = n := by
  rw [toLeBytes, fromLeBytes_toLeBytesAux]
  have h256 : (256 : Nat) ^ 8 = 2 ^ 64 := by norm_num
  rw [h256]
  exact Nat.mod_eq_of_lt h

/-- Decoder round trip: encoding a well-formed instruction per the wire
layout and decoding reproduces it exactly. -/
theorem unpack_pack (i : TokenInstruction) (h : wfInstruction i) :
    TokenInstruction.unpack (pack i) = RunResult.ok i := by
  cases i with
  | Initialize ts =>
    have hlen : (toLeBytes ts).length = 8 := toLeBytes_length ts
    simp [pack, TokenInstruction.unpack, TokenInstruction.unpack_u64, hlen]
    rw [← hlen, List.take_length]
    exact fromLeBytes_toLeBytes ts h
  | Transfer a =>
    have hlen : (toLeBytes a).length = 8 := toLeBytes_length a
    simp [pack, TokenInstruction.unpack, TokenInstruction.unpack_u64, hlen]
    rw [← hlen, List.take_length]
    exact fromLeBytes_toLeBytes a h
  | GetBalance => rfl
  | Approve sp a =>
    obtain ⟨hsp, ha⟩ := h
    have hlen : (sp ++ toLeBytes a).length = 40 := by
      simp [hsp, toLeBytes_length]
    have hl8 : (toLeBytes a).length = 8 := toLeBytes_length a
    simp [pack, TokenInstruction.unpack, TokenInstruction.unpack_approve,
      TokenInstruction.unpack_pubkey, TokenInstruction.unpack_u64, hlen,
      List.take_left' hsp, List.drop_left' hsp, hl8]
    rw [← hl8, List.take_length]
    exact fromLeBytes_toLeBytes a ha

/-- C4: the claim says a tag-3 (Approve) buffer with fewer than 32
payload bytes decodes to the malformed-instruction error; the code
instead reaches split_at(32) with no length check and panics.  Evaluated
here at the buffer [3]. -/
theorem c4_short_approve_panics :
    TokenInstruction.unpack [3] = RunResult.panic := rfl

/-- C6: the round-trip half of the claim holds (see the unpack_pack
theorem above), but the truncated-buffer half fails: a tag-3 buffer with
a 1-byte payload panics in split_at instead of returning the
malformed-instruction error.  Evaluated here at the buffer [3, 170]. -/
theorem c6_truncated_approve_panics :
    TokenInstruction.unpack [3, 170] = RunResult.panic := rfl

/-- C5 counterexample: initialize on a state that already has a balance
entry for the owner pushes a second entry instead of overwriting, so the
table holds two entries for the owner, refuting at most one. -/
theorem c5_counterexample :
    (Token.initializeToken ⟨0, pA, [(pA, 5)], []⟩ 10 pA).balances = [(pA, 5), (pA, 10)] ∧
    ((Token.initializeToken ⟨0, pA, [(pA, 5)], []⟩ 10 pA).balances.countP
      (fun e => e.1 == pA)) = 2 :=
  ⟨rfl, by decide⟩

/-- C5 amended: initialize sets total_supply and owner and appends
(owner, total_supply) to the balance table, leaving prior entries in
place; when the table starts empty the result is exactly the one entry
(owner, total_supply). -/
theorem c5_amended (t : Token) (ts : Nat) (o : Pubkey) :
    (t.initializeToken ts o).total_supply = ts ∧
    (t.initializeToken ts o).owner = o ∧
    (t.initializeToken ts o).balances = t.balances ++ [(o, ts)] ∧
    (t.balances = [] → (t.initializeToken ts o).balances = [(o, ts)]) := by
  refine ⟨rfl, rfl, rfl, fun h => ?_⟩
  simp [Token.initializeToken, h]

/-- C5 amended witness at a concrete empty state. -/
theorem c5_amended_witness :
    (Token.initializeToken emptyLedger 1000 pA).balances = [(pA, 1000)] :=
  (c5_amended emptyLedger 1000 pA).2.2.2 rfl

/-- C7: process_instruction rebuilds an empty ledger on every call, so a
Transfer instruction always fails its account lookup with the
unknown-account error, for any amount and any accounts (given enough
accounts for next_account_info to succeed). -/
theorem c7_transfer_on_fresh_state (pid : Pubkey) (accounts : List Pubkey)
    (amount : Nat) (h : 2 ≤ accounts.length) :
    process_instruction pid accounts (1 :: toLeBytes amount) =
      RunResult.err ProgramError.invalidArgument := by
  have hlen : (toLeBytes amount).length = 8 := toLeBytes_length amount
  cases accounts with
  | nil => simp at h
  | cons a0 tl =>
    cases tl with
    | nil => simp at h
    | cons a1 rest =>
      simp [process_instruction, TokenInstruction.unpack,
        TokenInstruction.unpack_u64, hlen, Token.transfer, scanIndices]

/-- C7 witness at concrete accounts and amount. -/
theorem c7_witness :
    process_instruction pA [pA, pB] (1 :: toLeBytes 7) =
      RunResult.err ProgramError.invalidArgument :=
  c7_transfer_on_fresh_state pA [pA, pB] 7 (by decide)

/-- C10 counterexample: a Transfer instruction with an empty account
list returns the structured NotEnoughAccountKeys error from
next_account_info; it does not panic, refuting the for-every-variant
panic claim. -/
theorem c10_counterexample :
    process_instruction pA [] [1, 0, 0, 0, 0, 0, 0, 0, 0] =
      RunResult.err ProgramError.notEnoughAccountKeys ∧
    process_instruction pA [] [1, 0, 0, 0, 0, 0, 0, 0, 0] ≠ RunResult.panic :=
  ⟨rfl, by decide⟩

/-- C10 amended: on an empty account list only the Initialize arm panics
(it indexes accounts[0] directly); the Transfer, GetBalance and Approve
arms call next_account_info first and return the structured
NotEnoughAccountKeys error. -/
theorem c10_amended (pid : Pubkey) (ts amt : Nat) (sp : List Nat)
    (h : sp.length = 32) :
    process_instruction pid [] (0 :: toLeBytes ts) = RunResult.panic ∧
    process_instruction pid [] (1 :: toLeBytes amt) =
      RunResult.err ProgramError.notEnoughAccountKeys ∧
    process_instruction pid [] [2] =
      RunResult.err ProgramError.notEnoughAccountKeys ∧
    process_instruction pid [] (3 :: (sp ++ toLeBytes amt)) =
      RunResult.err ProgramError.notEnoughAccountKeys := by
  have hts : (toLeBytes ts).length = 8 := toLeBytes_length ts
  have hamt : (toLeBytes amt).length = 8 := toLeBytes_length amt
  have happ : (sp ++ toLeBytes amt).length = 40 := by simp [h, hamt]
  refine ⟨?_, ?_, rfl, ?_⟩
  · simp [process_instruction, TokenInstruction.unpack,
      TokenInstruction.unpack_u64, hts]
  · simp [process_instruction, TokenInstruction.unpack,
      TokenInstruction.unpack_u64, hamt]
  · simp [process_instruction, TokenInstruction.unpack,
      TokenInstruction.unpack_approve, TokenInstruction.unpack_pubkey,
      TokenInstruction.unpack_u64, happ, List.drop_left' h, hamt]

/-- C10 amended witness at concrete values. -/
theorem c10_amended_witness :
    process_instruction pA [] (0 :: toLeBytes 1) = RunResult.panic :=
  (c10_amended pA 1 2 (List.replicate 32 0) (by decide)).1

/-- C8: get_balance never errors and does not touch the state (it is a
pure function of the Token); the GetBalance arm reads it through
unwrap_or(0), so an absent account reads as 0 and a present account
reads as the amount of its first entry. -/
theorem c8_get_balance_total (t : Token) (a : Pubkey) :
    ((∀ v, (a, v) ∉ t.balances) →
      t.get_balance a = none ∧ (t.get_balance a).getD 0 = 0) ∧
    (∀ (l1 l2 : List (Pubkey × Nat)) (v : Nat),
      t.balances = l1 ++ (a, v) :: l2 → (∀ w, (a, w) ∉ l1) →
      t.get_balance a = some v ∧ (t.get_balance a).getD 0 = v) := by
  constructor
  · intro habs
    have hnone : t.balances.find? (fun e => e.1 == a) = none := by
      rw [List.find?_eq_none]
      rintro ⟨e1, e2⟩ he hp
      simp only [beq_iff_eq] at hp
      subst hp
      exact habs e2 he
    simp [Token.get_balance, hnone]
  · rintro l1 l2 v hbal hl1
    have h1 : l1.find? (fun e => e.1 == a) = none := by
      rw [List.find?_eq_none]
      rintro ⟨e1, e2⟩ he hp
      simp only [beq_iff_eq] at hp
      subst hp
      exact hl1 e2 he
    have hfind : t.balances.find? (fun e => e.1 == a) = some (a, v) := by
      rw [hbal, List.find?_append, h1]
      simp
    simp [Token.get_balance, hfind]

/-- C8 witness on a concrete ledger. -/
theorem c8_witness :
    Token.get_balance ⟨1000, pA, [(pA, 1000)], []⟩ pB = none ∧
    (Token.get_balance ⟨1000, pA, [(pA, 1000)], []⟩ pA).getD 0 = 1000 := by
  constructor
  · exact ((c8_get_balance_total ⟨1000, pA, [(pA, 1000)], []⟩ pB).1
      (by
        intro v hv
        rw [List.mem_singleton] at hv
        exact absurd (show pA = pB from (congrArg Prod.fst hv).symm) (by decide))).1
  · exact ((c8_get_balance_total ⟨1000, pA, [(pA, 1000)], []⟩ pA).2 [] [] 1000 rfl
      (by intro w hw; exact absurd hw (List.not_mem_nil _))).2

theorem setAllowance_spec (o s : Pubkey) (a : Nat) :
    ∀ l : List (Pubkey × Pubkey × Nat),
      (match l.findIdx? (fun e => e.1 == o && e.2.1 == s) with
       | some index =>
         l.set index ((l.getD index ([], [], 0)).1, (l.getD index ([], [], 0)).2.1, a)
       | none => l ++ [(o, s, a)]) = setAllowance o s a l := by
  intro l
  induction l with
  | nil => rfl
  | cons e rest ih =>
    rw [List.findIdx?_cons]
    by_cases hp : (e.1 == o && e.2.1 == s) = true
    · simp [hp, setAllowance]
    · rw [List.findIdx?_succ]
      cases hfind : rest.findIdx? (fun e => e.1 == o && e.2.1 == s) with
      | none =>
        rw [hfind] at ih
        simp only [hfind] at *
        simp [hp, setAllowance, ← ih]
      | some j =>
        rw [hfind] at ih
        simp [hp, hfind, setAllowance, ← ih]

theorem approve_eq (t : Token) (o s : Pubkey) (a : Nat) :
    t.approve o s a =
      (Except.ok (), { t with allowances := setAllowance o s a t.allowances }) := by
  have h := setAllowance_spec o s a t.allowances
  simp only [Token.approve]
  cases hfi : t.allowances.findIdx? (fun e => e.1 == o && e.2.1 == s) with
  | some index =>
    rw [hfi] at h
    simp only [hfi]
    rw [← h]
  | none =>
    rw [hfi] at h
    simp only [hfi]
    rw [← h]

theorem filter_setAllowance (o s : Pubkey) (a : Nat) :
    ∀ l : List (Pubkey × Pubkey × Nat),
      l.countP (fun e => e.1 == o && e.2.1 == s) ≤ 1 →
      (setAllowance o s a l).filter (fun e => e.1 == o && e.2.1 == s) = [(o, s, a)] := by
  intro l
  induction l with
  | nil =>
    intro _
    simp [setAllowance]
  | cons e rest ih =>
    intro hcount
    by_cases hp : (e.1 == o && e.2.1 == s) = true
    · have h1 : e.1 = o := by
        have := (Bool.and_eq_true _ _).mp hp
        exact beq_iff_eq.mp this.1
      have h2 : e.2.1 = s := by
        have := (Bool.and_eq_true _ _).mp hp
        exact beq_iff_eq.mp this.2
      have hzero : rest.countP (fun e => e.1 == o && e.2.1 == s) = 0 := by
        simp only [List.countP_cons] at hcount
        rw [if_pos hp] at hcount
        omega
      have hrest : rest.filter (fun e => e.1 == o && e.2.1 == s) = [] := by
        rw [← List.length_eq_zero, ← List.countP_eq_length_filter]
        exact hzero
      simp [setAllowance, hp, List.filter, hrest, h1, h2]
    · have hcount' : rest.countP (fun e => e.1 == o && e.2.1 == s) ≤ 1 := by
        simp only [List.countP_cons] at hcount
        rw [if_neg hp] at hcount
        omega
      simp [setAllowance, hp, List.filter, ih hcount']

/-- C9: approve always returns Ok, and two successive approvals for the
same (owner, spender) pair leave exactly one allowance entry for that
pair, holding the second amount (given that the table starts with at
most one entry for the pair, as every reachable table does). -/
theorem c9_approve_overwrite (t : Token) (o s : Pubkey) (a1 a2 : Nat) :
    (t.approve o s a1).1 = Except.ok () ∧
    (t.allowances.countP (fun e => e.1 == o && e.2.1 == s) ≤ 1 →
      ((((t.approve o s a1).2).approve o s a2).2).allowances.filter
        (fun e => e.1 == o && e.2.1 == s) = [(o, s, a2)]) := by
  constructor
  · rw [approve_eq]
  · intro hcount
    rw [approve_eq, approve_eq]
    have h1 : (setAllowance o s a1 t.allowances).countP
        (fun e => e.1 == o && e.2.1 == s) ≤ 1 := by
      rw [List.countP_eq_length_filter, filter_setAllowance o s a1 t.allowances hcount]
      simp
    exact filter_setAllowance o s a2 (setAllowance o s a1 t.allowances) h1

/-- C9 witness on a concrete ledger: approve 50 then approve 5 leaves
the single entry (pA, pB, 5). -/
theorem c9_witness :
    ((((Token.approve ⟨0, pA, [], []⟩ pA pB 50).2).approve pA pB 5).2).allowances.filter
      (fun e => e.1 == pA && e.2.1 == pB) = [(pA, pB, 5)] :=
  (c9_approve_overwrite ⟨0, pA, [], []⟩ pA pB 50 5).2 (by decide)

theorem transfer_some_some (t : Token) (s r : Pubkey) (a : Nat) (si ri : Nat)
    (hscan : scanIndices s r t.balances 0 none none = (some si, some ri)) :
    t.transfer s r a =
      if (t.balances.getD si ([], 0)).2 < a then
        (Except.error ProgramError.insufficientFunds, t)
      else
        let sEntry := t.balances.getD si ([], 0)
        let bs1 := t.balances.set si (sEntry.1, sEntry.2 - a)
        let rEntry := bs1.getD ri ([], 0)
        let bs2 := bs1.set ri (rEntry.1, (rEntry.2 + a) % 2 ^ 64)
        (Except.ok (), { t with balances := bs2 }) := by
  unfold Token.transfer
  rw [hscan]

theorem transfer_scan_fst_none (t : Token) (s r : Pubkey) (a : Nat) (ro : Option Nat)
    (hscan : scanIndices s r t.balances 0 none none = (none, ro)) :
    t.transfer s r a = (Except.error ProgramError.invalidArgument, t) := by
  unfold Token.transfer
  rw [hscan]

theorem transfer_scan_snd_none (t : Token) (s r : Pubkey) (a : Nat) (si : Nat)
    (hscan : scanIndices s r t.balances 0 none none = (some si, none)) :
    t.transfer s r a = (Except.error ProgramError.invalidArgument, t) := by
  unfold Token.transfer
  rw [hscan]

/-- C2: when the index search found entries for both sender and
recipient and the sender balance is below amount, transfer returns the
InsufficientFunds error with the state exactly as it was; and on every
error path of transfer (either error) the whole state is returned
unchanged. -/
theorem c2_error_paths (t : Token) (s r : Pubkey) (a : Nat) :
    (∀ si ri, scanIndices s r t.balances 0 none none = (some si, some ri) →
      (t.balances.getD si ([], 0)).2 < a →
      t.transfer s r a = (Except.error ProgramError.insufficientFunds, t)) ∧
    (∀ e t', t.transfer s r a = (Except.error e, t') → t' = t) := by
  constructor
  · intro si ri hscan hlt
    rw [transfer_some_some t s r a si ri hscan, if_pos hlt]
  · intro e t' h
    cases hscan : scanIndices s r t.balances 0 none none with
    | mk os ro =>
      cases os with
      | none =>
        rw [transfer_scan_fst_none t s r a ro hscan] at h
        simp only [Prod.mk.injEq] at h
        exact h.2.symm
      | some si =>
        cases ro with
        | none =>
          rw [transfer_scan_snd_none t s r a si hscan] at h
          simp only [Prod.mk.injEq] at h
          exact h.2.symm
        | some ri =>
          rw [transfer_some_some t s r a si ri hscan] at h
          by_cases hlt : (t.balances.getD si ([], 0)).2 < a
          · rw [if_pos hlt] at h
            simp only [Prod.mk.injEq] at h
            exact h.2.symm
          · rw [if_neg hlt] at h
            simp only [Prod.mk.injEq] at h
            exact absurd h.1 (fun hc => Except.noConfusion hc)

/-- C2 witness: scenario 3 of the spec, transferring 700 from a balance
of 600 fails with InsufficientFunds and leaves the table unchanged. -/
theorem c2_witness :
    Token.transfer ⟨1000, pA, [(pA, 600), (pB, 400)], []⟩ pA pB 700 =
      (Except.error ProgramError.insufficientFunds,
        ⟨1000, pA, [(pA, 600), (pB, 400)], []⟩) :=
  (c2_error_paths ⟨1000, pA, [(pA, 600), (pB, 400)], []⟩ pA pB 700).1 0 1
    (by decide) (by decide)

theorem scanIndices_fst_isSome (s r : Pubkey) :
    ∀ (l : List (Pubkey × Nat)) (i : Nat) (s0 r0 : Option Nat),
      ((scanIndices s r l i s0 r0).1).isSome =
        (s0.isSome || l.any (fun e => e.1 == s)) := by
  intro l
  induction l with
  | nil => intro i s0 r0; simp [scanIndices]
  | cons e rest ih =>
    intro i s0 r0
    obtain ⟨acc, bal⟩ := e
    by_cases hs : (acc == s) = true <;> by_cases hr : (acc == r) = true <;>
      cases s0 <;> cases r0 <;>
        simp [scanIndices, hs, hr, ih]

theorem scanIndices_snd_isSome (s r : Pubkey) :
    ∀ (l : List (Pubkey × Nat)) (i : Nat) (s0 r0 : Option Nat),
      ((scanIndices s r l i s0 r0).2).isSome =
        (r0.isSome || l.any (fun e => e.1 == r)) := by
  intro l
  induction l with
  | nil => intro i s0 r0; simp [scanIndices]
  | cons e rest ih =>
    intro i s0 r0
    obtain ⟨acc, bal⟩ := e
    by_cases hs : (acc == s) = true <;> by_cases hr : (acc == r) = true <;>
      cases s0 <;> cases r0 <;>
        simp [scanIndices, hs, hr, ih]

/-- C3: transfer fails with the unknown-account error exactly when the
balance table has no entry for the sender or none for the recipient,
and in that case the InsufficientFunds check is never reached (when both
entries exist the result is never the unknown-account error, whatever
the amount). -/
theorem c3_unknown_account_iff (t : Token) (s r : Pubkey) (a : Nat) :
    (t.transfer s r a).1 = Except.error ProgramError.invalidArgument ↔
      (t.balances.any (fun e => e.1 == s) = false ∨
       t.balances.any (fun e => e.1 == r) = false) := by
  have hf := scanIndices_fst_isSome s r t.balances 0 none none
  have hg := scanIndices_snd_isSome s r t.balances 0 none none
  simp only [Option.isSome_none, Bool.false_or] at hf hg
  cases hscan : scanIndices s r t.balances 0 none none with
  | mk os ro =>
    rw [hscan] at hf hg
    dsimp only at hf hg
    cases os with
    | none =>
      have hres : (t.transfer s r a).1 = Except.error ProgramError.invalidArgument := by
        rw [transfer_scan_fst_none t s r a ro hscan]
      have hany : t.balances.any (fun e => e.1 == s) = false := by
        simpa using hf.symm
      exact iff_of_true hres (Or.inl hany)
    | some si =>
      cases ro with
      | none =>
        have hres : (t.transfer s r a).1 = Except.error ProgramError.invalidArgument := by
          rw [transfer_scan_snd_none t s r a si hscan]
        have hany : t.balances.any (fun e => e.1 == r) = false := by
          simpa using hg.symm
        exact iff_of_true hres (Or.inr hany)
      | some ri =>
        have h1 : t.balances.any (fun e => e.1 == s) = true := by
          simpa using hf.symm
        have h2 : t.balances.any (fun e => e.1 == r) = true := by
          simpa using hg.symm
        have hres : (t.transfer s r a).1 ≠ Except.error ProgramError.invalidArgument := by
          rw [transfer_some_some t s r a si ri hscan]
          by_cases hlt : (t.balances.getD si ([], 0)).2 < a
          · rw [if_pos hlt]
            intro hcon
            exact ProgramError.noConfusion (Except.error.inj hcon)
          · rw [if_neg hlt]
            intro hcon
            exact Except.noConfusion hcon
        have hany : ¬(t.balances.any (fun e => e.1 == s) = false ∨
            t.balances.any (fun e => e.1 == r) = false) := by
          simp [h1, h2]
        exact iff_of_false hres hany

theorem transfer_total_supply (t : Token) (s r : Pubkey) (a : Nat) :
    ((t.transfer s r a).2).total_supply = t.total_supply := by
  cases hscan : scanIndices s r t.balances 0 none none with
  | mk os ro =>
    cases os with
    | none => rw [transfer_scan_fst_none t s r a ro hscan]
    | some si =>
      cases ro with
      | none => rw [transfer_scan_snd_none t s r a si hscan]
      | some ri =>
        rw [transfer_some_some t s r a si ri hscan]
        by_cases hlt : (t.balances.getD si ([], 0)).2 < a
        · rw [if_pos hlt]
        · rw [if_neg hlt]

theorem transfer_single_balances (t : Token) (o : Pubkey) (ts : Nat)
    (hts : ts < 2 ^ 64) (hb : t.balances = [(o, ts)]) (s r : Pubkey) (a : Nat) :
    ((t.transfer s r a).2).balances = [(o, ts)] := by
  by_cases hs : (o == s) = true <;> by_cases hr : (o == r) = true
  · have hscan : scanIndices s r t.balances 0 none none = (some 0, some 0) := by
      rw [hb]; simp [scanIndices, hs, hr]
    rw [transfer_some_some t s r a 0 0 hscan, hb]
    by_cases hlt : (([(o, ts)] : List (Pubkey × Nat)).getD 0 ([], 0)).2 < a
    · rw [if_pos hlt]
      exact hb
    · rw [if_neg hlt]
      have ha : a ≤ ts := Nat.le_of_not_lt hlt
      show [(o, (ts - a + a) % 2 ^ 64)] = [(o, ts)]
      rw [Nat.sub_add_cancel ha, Nat.mod_eq_of_lt hts]
  · have hscan : scanIndices s r t.balances 0 none none = (some 0, none) := by
      rw [hb]; simp [scanIndices, hs, hr]
    rw [transfer_scan_snd_none t s r a 0 hscan]
    exact hb
  · have hscan : scanIndices s r t.balances 0 none none = (none, some 0) := by
      rw [hb]; simp [scanIndices, hs, hr]
    rw [transfer_scan_fst_none t s r a (some 0) hscan]
    exact hb
  · have hscan : scanIndices s r t.balances 0 none none = (none, none) := by
      rw [hb]; simp [scanIndices, hs, hr]
    rw [transfer_scan_fst_none t s r a none hscan]
    exact hb

theorem runTransfers_single (o : Pubkey) (ts : Nat) (hts : ts < 2 ^ 64) :
    ∀ (reqs : List (Pubkey × Pubkey × Nat)) (t : Token), t.balances = [(o, ts)] →
      (runTransfers t reqs).balances = [(o, ts)] := by
  intro reqs
  induction reqs with
  | nil => intro t hb; exact hb
  | cons req rest ih =>
    intro t hb
    obtain ⟨s, r, a⟩ := req
    simp only [runTransfers]
    exact ih _ (transfer_single_balances t o ts hts hb s r a)

theorem runTransfers_total_supply :
    ∀ (reqs : List (Pubkey × Pubkey × Nat)) (t : Token),
      (runTransfers t reqs).total_supply = t.total_supply := by
  intro reqs
  induction reqs with
  | nil => intro t; rfl
  | cons req rest ih =>
    intro t
    obtain ⟨s, r, a⟩ := req
    simp only [runTransfers]
    rw [ih, transfer_total_supply]

/-- C1: conservation law.  After initialize(total, owner) on an empty
ledger, any sequence of transfer calls (the arbitrary request list in
particular covers every prefix, that is, every step of any sequence of
successful calls) leaves the sum of all balance entries equal to total,
which is also still the total_supply field of the state. -/
theorem c1_conservation (total : Nat) (o : Pubkey)
    (reqs : List (Pubkey × Pubkey × Nat)) (h : total < 2 ^ 64) :
    sumBalances ((runTransfers (emptyLedger.initializeToken total o) reqs).balances) = total ∧
    (runTransfers (emptyLedger.initializeToken total o) reqs).total_supply = total := by
  have hb : (emptyLedger.initializeToken total o).balances = [(o, total)] := rfl
  constructor
  · rw [runTransfers_single o total h reqs _ hb]
    simp [sumBalances]
  · rw [runTransfers_total_supply]
    rfl

/-- C1 witness: initialize 1000 to pA and run one self-transfer. -/
theorem c1_witness :
    sumBalances ((runTransfers (emptyLedger.initializeToken 1000 pA)
        [(pA, pA, 400)]).balances) = 1000 ∧
    (runTransfers (emptyLedger.initializeToken 1000 pA)
        [(pA, pA, 400)]).total_supply = 1000 :=
  c1_conservation 1000 pA [(pA, pA, 400)] (by norm_num)

end Solquad
